import Mathlib

/-!
Verification of the LaTeX-to-PDF compilation subsystem of the `mcq` repository.

The development shallowly embeds the Python sources
`web/utils/robust_latex_compiler.py` (validator, strategy ladder, compiler
facade, log analysis) and the `extract_body` helper of `builder/build_sheet.py`
and `web/app.py` into Lean.  Text is modelled as `List Char`; external process
invocations are modelled by an explicit oracle describing, for each pass, what
the subprocess did (its merged stdout, its exit code, and whether the expected
PDF artifact existed in the workspace afterwards).  Wall-clock timing
(`compilation_time`) is not modelled.
-/

namespace MCQ

/-- Text is modelled as a list of characters. -/
abbrev Str := List Char

/-- Convert a Lean string literal to the `List Char` representation. -/
def str (s : String) : Str := s.data

/-- Whitespace characters stripped by Python `str.strip()` (ASCII range). -/
def pyIsSpace (c : Char) : Bool :=
  c == ' ' || c == '\t' || c == '\n' || c == '\r' || c == '\x0b' || c == '\x0c'

/-- Word characters of the regex class `\w` (ASCII range). -/
def isWordChar (c : Char) : Bool := c.isAlpha || c.isDigit || c == '_'

/-- Remove leading whitespace, as the leading half of Python `str.strip()`. -/
def lstrip (l : Str) : Str := l.dropWhile pyIsSpace

/-- Remove trailing whitespace, as the trailing half of Python `str.strip()`. -/
def rstrip : Str → Str
  | [] => []
  | c :: cs =>
    match rstrip cs with
    | [] => if pyIsSpace c then [] else [c]
    | r => c :: r

/-- Python `str.strip()`: remove leading and trailing whitespace. -/
def pyStrip (l : Str) : Str := rstrip (lstrip l)

/-- Whether `pat` is a leading segment of `l`. -/
def startsWith (pat l : Str) : Bool := l.take pat.length == pat

/-- Index of the first occurrence of `pat` in `l` (Python `str.find` /
leftmost regex match position for a literal pattern). -/
def findSub (pat : Str) : Str → Option Nat
  | [] => if startsWith pat [] then some 0 else none
  | c :: cs =>
    if startsWith pat (c :: cs) then some 0
    else (findSub pat cs).map (· + 1)

/-- Python's `in` operator on strings: substring containment. -/
def containsSub (pat l : Str) : Bool := (findSub pat l).isSome

/-- The maximal run matched by regex `.+` and `.*`: everything up to the next
newline (the `re` dot does not match `\n` without `DOTALL`). -/
def lineRest (l : Str) : Str := l.takeWhile (fun c => c != '\n')

/-- Largest `j ≤ n` satisfying `p` (used for greedy regex backtracking). -/
def findLargest (p : Nat → Bool) : Nat → Option Nat
  | 0 => if p 0 then some 0 else none
  | n + 1 => if p (n + 1) then some (n + 1) else findLargest p n

/-- A matcher takes the suffix of the subject at the candidate position and
returns `(number of characters consumed, captured value)` on a match. -/
abbrev Matcher (α : Type) := Str → Option (Nat × α)

/-- One step of a left-to-right regex scan: try the matcher on the suffix at
absolute position `i` of `l`. -/
def matchAtPos (m : Matcher α) (l : Str) (i : Nat) : Option (Nat × α) :=
  (m (l.drop i)).map (fun r => (i + r.1, r.2))

/-- Fueled worker for `reFinditer`: scan positions left to right, resuming
after the end of each (non-empty) match, as `re.finditer` does. -/
def scanFrom (mf : Nat → Option (Nat × α)) : Nat → Nat → List α
  | 0, _ => []
  | fuel + 1, i =>
    match mf i with
    | some (j, a) => a :: scanFrom mf fuel (max j (i + 1))
    | none => scanFrom mf fuel (i + 1)

/-- All non-overlapping matches of a matcher, left to right (`re.finditer`). -/
def reFinditer (m : Matcher α) (l : Str) : List α :=
  scanFrom (matchAtPos m l) (l.length + 1) 0

/-- Fueled worker for `reSearch`. -/
def searchFrom (mf : Nat → Option (Nat × α)) : Nat → Nat → Option α
  | 0, _ => none
  | fuel + 1, i =>
    match mf i with
    | some (_, a) => some a
    | none => searchFrom mf fuel (i + 1)

/-- First (leftmost) match of a matcher (`re.search`). -/
def reSearch (m : Matcher α) (l : Str) : Option α :=
  searchFrom (matchAtPos m l) (l.length + 1) 0

/-!  `LaTeXValidator` (robust_latex_compiler.py lines 40-92). -/

/-- Matcher for validation rule `\${3,}`: a run of three or more `$` signs.
Greedy, so the whole maximal run is consumed. -/
def mDollarRun : Matcher Unit := fun s =>
  let run := (s.takeWhile (fun c => c == '$')).length
  if 3 ≤ run then some (run, ()) else none

/-- Matcher for validation rule `\\textbf\{[^}]*\\textbf`.  The greedy
`[^}]*` consumes up to the last position, before the first closing brace,
at which the trailing literal `\textbf` matches. -/
def mNestedTextbf : Matcher Unit := fun s =>
  if startsWith (str "\\textbf\x7b") s then
    let t := s.drop 8
    let k := (t.takeWhile (fun c => c != '\x7d')).length
    match findLargest (fun j => startsWith (str "\\textbf") (t.drop j)) k with
    | some j => some (8 + j + 7, ())
    | none => none
  else none

/-- Message produced by the `\${3,}` rule (after `str.format` collapses the
doubled braces of the template). -/
def tooManyMsg : Str := str "Too many $ signs (use \\[ \\] or \\begin\x7bequation\x7d)"

/-- Message produced by the nested-`\textbf` rule. -/
def nestedMsg : Str := str "Nested \\textbf commands"

/-- Leading text of every brace-imbalance finding. -/
def bracePre : Str := str "Unbalanced braces: "

/-- The brace-imbalance finding for signed difference `d` (count of `{` minus
count of `}`): `f"Unbalanced braces: {abs(brace_count)} {'extra {' if brace_count > 0 else 'extra }'}"`. -/
def braceMsg (d : Int) : Str :=
  bracePre ++ str (toString d.natAbs) ++
    (if 0 < d then str " extra \x7b" else str " extra \x7d")

/-- Whether a finding is a brace-imbalance finding (it carries the
distinctive leading text of `braceMsg`). -/
def braceShape (s : Str) : Bool := startsWith bracePre s

/-- The math-delimiter finding. -/
def dollarMsg : Str := str "Unbalanced math delimiters ($)"

/-- Signed brace difference `latex_content.count('{') - latex_content.count('}')`. -/
def braceDiff (l : Str) : Int := (l.count '\x7b' : Int) - (l.count '\x7d' : Int)

/-- `LaTeXValidator.validate_syntax`: returns `(is_valid, list_of_errors)`.
Rule matches are collected first (each appends its fixed message), then the
brace-balance check, then the `$`-parity check. -/
def validate_syntax' (l : Str) : Bool × List Str :=
  let ruleErrors :=
    ((reFinditer mDollarRun l).map (fun _ => tooManyMsg)) ++
    ((reFinditer mNestedTextbf l).map (fun _ => nestedMsg))
  let errors :=
    ruleErrors ++
    (if braceDiff l ≠ 0 then [braceMsg (braceDiff l)] else []) ++
    (if l.count '$' % 2 ≠ 0 then [dollarMsg] else [])
  (errors.isEmpty, errors)

/-- Packages whose absence `validate_packages` warns about. -/
def REQUIRED_PACKAGES : List Str := [str "polyglossia", str "fontspec"]

/-- `LaTeXValidator.validate_packages`: never fails, only warns about missing
`\usepackage{...}` directives. -/
def validate_packages (l : Str) : Bool × List Str :=
  (true,
    (REQUIRED_PACKAGES.filter
      (fun p => !(containsSub (str "\\usepackage\x7b" ++ p ++ str "\x7d") l))).map
      (fun p => str "Missing recommended package: " ++ p))

/-!  `extract_body` (build_sheet.py lines 33-38, app.py lines 529-533). -/

/-- The literal `\begin{document}`. -/
def beginTok : Str := str "\\begin\x7bdocument\x7d"

/-- The literal `\end{document}`. -/
def endTok : Str := str "\\end\x7bdocument\x7d"

/-- `extract_body`: embeds
`re.search(r"\\begin\{document\}(.*?)\\end\{document\}", content, flags=re.S)`
followed by `.group(1).strip()`, falling back to `content.strip()`.

The leftmost match of this pattern starts at the first occurrence of
`\begin{document}` (a later start position can only help if some
`\end{document}` follows it, and that same occurrence also follows the first
`\begin{document}`, whose 16 literal characters no `\end{document}` can
overlap since its only backslash is at offset 0); the lazy `(.*?)` then ends
the group at the first `\end{document}` at or after the end of the begin
marker. -/
def extract_body (content : Str) : Str :=
  match findSub beginTok content with
  | none => pyStrip content
  | some i =>
    match findSub endTok (content.drop (i + beginTok.length)) with
    | none => pyStrip content
    | some j => pyStrip ((content.drop (i + beginTok.length)).take j)

/-!  Log analysis (robust_latex_compiler.py lines 178-201 and 418-474). -/

/-- Matcher for warning pattern `Warning: (.+)`. -/
def mWarn1 : Matcher Str := fun s =>
  if startsWith (str "Warning: ") s then
    let g := lineRest (s.drop 9)
    if g.isEmpty then none else some (9 + g.length, g)
  else none

/-- Matcher for warning pattern `LaTeX Warning: (.+)`. -/
def mWarn2 : Matcher Str := fun s =>
  if startsWith (str "LaTeX Warning: ") s then
    let g := lineRest (s.drop 15)
    if g.isEmpty then none else some (15 + g.length, g)
  else none

/-- Matcher for warning pattern `Package \w+ Warning: (.+)`.  The greedy `\w+`
must consume the whole word run, because the following literal starts with a
space, which is not a word character. -/
def mWarn3 : Matcher Str := fun s =>
  if startsWith (str "Package ") s then
    let w := (s.drop 8).takeWhile isWordChar
    if w.isEmpty then none
    else
      let q := 8 + w.length
      if startsWith (str " Warning: ") (s.drop q) then
        let g := lineRest (s.drop (q + 10))
        if g.isEmpty then none else some (q + 10 + g.length, g)
      else none
  else none

/-- The raw per-pattern warning texts, in the order the source iterates them:
all matches of the first pattern, then the second, then the third, each
captured group passed through `.strip()[:150]`. -/
def rawWarnings (log : Str) : List Str :=
  ((reFinditer mWarn1 log) ++ (reFinditer mWarn2 log) ++ (reFinditer mWarn3 log)).map
    (fun w => (pyStrip w).take 150)

/-- `RobustLaTeXCompiler._extract_warnings_from_log`: collect pattern matches,
skip duplicates by exact text, and cap the result at 10 entries. -/
def extract_warnings_from_log (log : Str) : List Str :=
  ((rawWarnings log).foldl
    (fun acc w => if w ∈ acc then acc else acc ++ [w]) []).take 10

/-- Matcher for a missing-file pattern `<pre>([^']+)<mid>' not found` where
`mid` is `.sty` or `.cls`.  The greedy `[^']+` forces the literal tail to sit
at the first apostrophe of the region minus the 4 characters of `mid`. -/
def mMissingFile (pre mid : Str) : Matcher Str := fun s =>
  if startsWith pre s then
    let t := s.drop pre.length
    let k := (t.takeWhile (fun c => c != '\x27')).length
    if 5 ≤ k && startsWith (mid ++ str "\x27 not found") (t.drop (k - 4)) then
      some (pre.length + (k - 4) + (mid.length + 11), t.take (k - 4))
    else none
  else none

/-- Matcher for `! LaTeX Error: File `([^']+)\.sty' not found`. -/
def mPkg1 : Matcher Str := mMissingFile (str "! LaTeX Error: File `") (str ".sty")

/-- Matcher for `! LaTeX Error: File `([^']+)\.cls' not found`. -/
def mPkg2 : Matcher Str := mMissingFile (str "! LaTeX Error: File `") (str ".cls")

/-- Matcher for a pattern `<pre>(\w+)<post>`: greedy `\w+` must take the whole
word run because `post` starts with a non-word character. -/
def mWordBetween (pre post : Str) : Matcher Str := fun s =>
  if startsWith pre s then
    let w := (s.drop pre.length).takeWhile isWordChar
    if w.isEmpty then none
    else if startsWith post (s.drop (pre.length + w.length)) then
      some (pre.length + w.length + post.length, w)
    else none
  else none

/-- Matcher for `Package (\w+) Error:`. -/
def mPkg3 : Matcher Str := mWordBetween (str "Package ") (str " Error:")

/-- Matcher for `! Package (\w+) not found`. -/
def mPkg4 : Matcher Str := mWordBetween (str "! Package ") (str " not found")

/-- `RobustLaTeXCompiler.detect_missing_packages`: all four patterns in
order, deduplicated by membership, order preserved. -/
def detect_missing_packages (log : Str) : List Str :=
  ((reFinditer mPkg1 log) ++ (reFinditer mPkg2 log) ++
   (reFinditer mPkg3 log) ++ (reFinditer mPkg4 log)).foldl
    (fun acc p => if p ∈ acc then acc else acc ++ [p]) []

/-- Matcher for an error pattern `<pre>(.+)`: literal prefix, then a
non-empty rest of line. -/
def mLitLine (pre : Str) : Matcher Str := fun s =>
  if startsWith pre s then
    let g := lineRest (s.drop pre.length)
    if g.isEmpty then none else some (pre.length + g.length, g)
  else none

/-- Matcher for `l\.(\d+)\s+(.+)`: `l.` then digits, then whitespace (which
may span newlines), then a non-empty rest of line.  The greedy `\s+` takes the
maximal whitespace run when a character follows it; when the run reaches the
end of the subject it backtracks to the last non-newline character of the
run. -/
def mLineNum : Matcher (Str × Str) := fun s =>
  if startsWith (str "l.") s then
    let d := (s.drop 2).takeWhile (fun c => c.isDigit)
    if d.isEmpty then none
    else
      let t := s.drop (2 + d.length)
      let m := (t.takeWhile pyIsSpace).length
      if m == 0 then none
      else if m < t.length then
        let g := lineRest (t.drop m)
        some (2 + d.length + m + g.length, (d, g))
      else
        match findLargest (fun r => decide (1 ≤ r) && (t.getD r '\n' != '\n')) (m - 1) with
        | some r =>
          let g := lineRest (t.drop r)
          some (2 + d.length + r + g.length, (d, g))
        | none => none
  else none

/-- The seven `(pattern, template)` pairs of `_extract_error_from_log`,
rendered as the literal prefix to match and the template prefix to prepend to
the stripped, truncated capture. -/
def errorPatterns : List (Str × Str) :=
  [ (str "! LaTeX Error: ", str "LaTeX Error: "),
    (str "! ", str "Error: "),
    (str "ERROR: ", str "Compilation Error: "),
    (str "Fatal error: ", str "Fatal Error: "),
    (str "Runaway argument?", str "Runaway Argument: "),
    (str "Undefined control sequence", str "Undefined Command: "),
    (str "Missing ", str "Missing: ") ]

/-- Try the error patterns in order; the first pattern with a match wins, its
capture passed through `.strip()[:200]` into the template. -/
def firstErrorMatch : List (Str × Str) → Str → Option Str
  | [], _ => none
  | (pre, tmpl) :: rest, log =>
    match reSearch (mLitLine pre) log with
    | some g => some (tmpl ++ (pyStrip g).take 200)
    | none => firstErrorMatch rest log

/-- `RobustLaTeXCompiler._extract_error_from_log`. -/
def extract_error_from_log (log : Str) : Str :=
  let mp := detect_missing_packages log
  if !mp.isEmpty then
    str "Missing LaTeX packages: " ++ List.intercalate (str ", ") (mp.take 3) ++
      str ". Please install them or use a different compiler strategy."
  else
    match firstErrorMatch errorPatterns log with
    | some msg => msg
    | none =>
      match reSearch mLineNum log with
      | some (n, ctx) =>
        str "Error at line " ++ n ++ str ": " ++ ctx.take 100
      | none =>
        if containsSub (str "Overfull") log || containsSub (str "Underfull") log then
          str "Formatting issues detected. The document may still be usable."
        else
          str "Unknown compilation error. Try a different compiler strategy or check your LaTeX syntax."

/-!  `RobustLaTeXCompiler` (robust_latex_compiler.py lines 117-416, 478-495).

External effects are modelled by an oracle: for each attempted strategy, a
`StrategyRun` describes what happened — either an unexpected exception inside
the strategy body (caught by the outer `except` clause), or, per pass, the
subprocess outcome: merged stdout, exit code, and whether `filename.pdf`
existed in the temporary workspace after the pass.  The model additionally
reports how many subprocesses were spawned and which output file (if any) was
written to the caller's output directory, so that "no subprocess is ever
spawned" and "the artifact exists" become statable. -/

/-- One entry of the `STRATEGIES` ladder. -/
structure Strategy where
  name : Str
  command : Str
  args : List Str
  passes : Nat
  timeout : Nat
  description : Str
deriving DecidableEq

/-- Strategy `lualatex_fast`. -/
def lualatex_fast : Strategy :=
  { name := str "lualatex_fast", command := str "lualatex",
    args := [str "-interaction=nonstopmode", str "-halt-on-error", str "-shell-escape"],
    passes := 2, timeout := 40,
    description := str "LuaLaTeX with shell-escape (for TikZ, minted, etc.)" }

/-- Strategy `xelatex_unicode`. -/
def xelatex_unicode : Strategy :=
  { name := str "xelatex_unicode", command := str "xelatex",
    args := [str "-interaction=nonstopmode", str "-halt-on-error", str "-shell-escape"],
    passes := 2, timeout := 40,
    description := str "XeLaTeX for advanced Unicode and font support" }

/-- Strategy `lualatex_robust`. -/
def lualatex_robust : Strategy :=
  { name := str "lualatex_robust", command := str "lualatex",
    args := [str "-interaction=nonstopmode", str "-shell-escape"],
    passes := 3, timeout := 60,
    description := str "LuaLaTeX robust mode (continues on errors)" }

/-- Strategy `xelatex_robust`. -/
def xelatex_robust : Strategy :=
  { name := str "xelatex_robust", command := str "xelatex",
    args := [str "-interaction=nonstopmode", str "-shell-escape"],
    passes := 3, timeout := 60,
    description := str "XeLaTeX robust mode" }

/-- Strategy `pdflatex_modern`. -/
def pdflatex_modern : Strategy :=
  { name := str "pdflatex_modern", command := str "pdflatex",
    args := [str "-interaction=nonstopmode", str "-shell-escape"],
    passes := 3, timeout := 45,
    description := str "PDFLaTeX with shell-escape" }

/-- Strategy `pdflatex_safe`. -/
def pdflatex_safe : Strategy :=
  { name := str "pdflatex_safe", command := str "pdflatex",
    args := [str "-interaction=nonstopmode"],
    passes := 2, timeout := 30,
    description := str "PDFLaTeX safe mode (no shell commands)" }

/-- The compilation-strategy ladder, in order of preference. -/
def STRATEGIES : List Strategy :=
  [lualatex_fast, xelatex_unicode, lualatex_robust, xelatex_robust,
   pdflatex_modern, pdflatex_safe]

/-- The dataclass `CompilationResult` after `__post_init__` has run (so
`warnings` is always a list).  Wall-clock `compilation_time` is not
modelled. -/
structure CompilationResult where
  success : Bool
  pdf_path : Option Str
  error_message : Option Str
  warnings : List Str
  log_content : Option Str
deriving DecidableEq

/-- The dataclass constructor: field defaults are `None`, and
`__post_init__` replaces a `None` `warnings` with the empty list. -/
def mkCompilationResult (success : Bool) (pdf_path : Option Str)
    (error_message : Option Str) (warnings : Option (List Str))
    (log_content : Option Str) : CompilationResult :=
  { success := success, pdf_path := pdf_path, error_message := error_message,
    warnings := warnings.getD [], log_content := log_content }

/-- What one subprocess invocation (one pass) did. -/
inductive PassOutcome where
  /-- The process completed; `stdout` is its merged output, `returncode` its
  exit status, and `pdfExists` whether `filename.pdf` existed in the
  workspace afterwards. -/
  | ran (stdout : Str) (returncode : Int) (pdfExists : Bool)
  /-- `subprocess.TimeoutExpired` was raised. -/
  | subprocessTimeout
  /-- The signal-alarm `TimeoutError` was raised. -/
  | alarmTimeout

/-- Oracle for one `_try_strategy` call. -/
structure StrategyRun where
  /-- If set, an unexpected exception (with this message) is raised inside
  the strategy body before any subprocess is spawned; it is caught by the
  outer `except Exception` clause. -/
  exn : Option Str
  /-- Outcome of pass `k`. -/
  outcomes : Nat → PassOutcome

/-- Result of `_try_strategy`, extended with the observable effects. -/
structure TryOutcome where
  result : CompilationResult
  /-- Number of subprocesses spawned. -/
  spawned : Nat
  /-- The output-directory file written by `shutil.copy2`, if any. -/
  written : Option Str

/-- `subprocess.TimeoutExpired` message. -/
def timeoutExpiredMsg (t : Nat) : Str :=
  str "Compilation timed out after " ++ str (toString t) ++ str "s (possible infinite loop)"

/-- The `TimeoutError` message raised by the `timeout` context manager. -/
def alarmTimeoutMsg (t : Nat) : Str :=
  str "Operation timed out after " ++ str (toString t) ++ str " seconds"

/-- Failure message when a pass left no PDF in the workspace. -/
def strategyFailedMsg (name log : Str) : Str :=
  str "Strategy \x27" ++ name ++ str "\x27 failed: " ++ extract_error_from_log log

/-- Message of the outer `except Exception` clause. -/
def unexpectedErrorMsg (name e : Str) : Str :=
  str "Unexpected error in strategy \x27" ++ name ++ str "\x27: " ++ e

/-- Failure message when the pass loop finished but no PDF exists. -/
def pdfNotGeneratedMsg : Str := str "PDF not generated (unknown error)"

/-- Exhaustion message returned when every strategy failed. -/
def allFailedMsg : Str :=
  str "All compilation strategies failed. Please check your LaTeX syntax."

/-- The validation-failure message: header plus all findings, one per line,
each prefixed with an indented bullet. -/
def validationFailedMsg (errors : List Str) : Str :=
  str "LaTeX validation failed:\n" ++
    List.intercalate (str "\n") (errors.map (fun e => str "  • " ++ e))

/-- Exit state of the pass loop of `_try_strategy`. -/
inductive LoopExit where
  /-- A pass failed (timeout, or no PDF after the pass); carries the
  already-built failure result. -/
  | fail (res : CompilationResult)
  /-- All passes completed; carries the accumulated log and whether the PDF
  existed after the last pass (`false` when no pass ran). -/
  | done (log : Str) (pdfNow : Bool)

/-- The `for pass_num in range(strategy['passes'])` loop of `_try_strategy`:
`remaining` passes left, `k` the current pass index, `log` the accumulated
stdout, `pdfNow` whether the workspace currently holds the PDF, `sp` the
subprocess count so far. -/
def passLoop (st : Strategy) (oc : Nat → PassOutcome) :
    Nat → Nat → Str → Bool → Nat → LoopExit × Nat
  | 0, _, log, pdfNow, sp => (.done log pdfNow, sp)
  | r + 1, k, log, _pdfNow, sp =>
    match oc k with
    | .subprocessTimeout =>
      (.fail (mkCompilationResult false none
        (some (timeoutExpiredMsg st.timeout)) none (some log)), sp + 1)
    | .alarmTimeout =>
      (.fail (mkCompilationResult false none
        (some (alarmTimeoutMsg st.timeout)) none (some log)), sp + 1)
    | .ran out _rc pdfEx =>
      let log2 := log ++ out
      if pdfEx then passLoop st oc r (k + 1) log2 true (sp + 1)
      else
        (.fail (mkCompilationResult false none
          (some (strategyFailedMsg st.name log2)) none (some log2)), sp + 1)

/-- The path `output_dir / f"{filename}.pdf"`. -/
def outputPdfPath (output_dir filename : Str) : Str :=
  output_dir ++ str "/" ++ filename ++ str ".pdf"

/-- `RobustLaTeXCompiler._try_strategy`.  The LaTeX source is written to the
workspace; its content does not further influence the model (the oracle
already accounts for it). -/
def try_strategy (_latex_content : Str) (output_dir : Str) (filename : Str)
    (st : Strategy) (rn : StrategyRun) : TryOutcome :=
  match rn.exn with
  | some e =>
    { result := mkCompilationResult false none
        (some (unexpectedErrorMsg st.name e)) none none,
      spawned := 0, written := none }
  | none =>
    match passLoop st rn.outcomes st.passes 0 [] false 0 with
    | (.fail res, sp) => { result := res, spawned := sp, written := none }
    | (.done log pdfNow, sp) =>
      if pdfNow then
        { result := mkCompilationResult true
            (some (outputPdfPath output_dir filename)) none
            (some (extract_warnings_from_log log)) (some log),
          spawned := sp, written := some (outputPdfPath output_dir filename) }
      else
        { result := mkCompilationResult false none
            (some pdfNotGeneratedMsg) none (some log),
          spawned := sp, written := none }

/-- Result of `compile`, extended with the observable effects. -/
structure CompileOutcome where
  result : CompilationResult
  spawned : Nat
  written : Option Str

/-- Strategy selection:
`self.STRATEGIES if not strategy_name else [s for s in self.STRATEGIES if s['name'] == strategy_name]`.
Note that Python treats the empty string like `None` here (both are falsy),
so an empty `strategy_name` selects the whole ladder. -/
def strategiesFor (strategy_name : Option Str) : List Strategy :=
  match strategy_name with
  | none => STRATEGIES
  | some n =>
    if n.isEmpty then STRATEGIES
    else STRATEGIES.filter (fun s => s.name == n)

/-- The `for strategy in strategies` loop of `compile`: try each strategy in
turn with its own oracle (`envs i` for the `i`-th attempt); on the first
success, append the package warnings to the result's warnings and stop; if
the list is exhausted, return the generic failure. -/
def compileLoop (envs : Nat → StrategyRun) (latex od fn : Str)
    (pkgWarnings : List Str) : List Strategy → Nat → Nat → CompileOutcome
  | [], _, spAcc =>
    { result := mkCompilationResult false none (some allFailedMsg) none none,
      spawned := spAcc, written := none }
  | st :: rest, idx, spAcc =>
    let t := try_strategy latex od fn st (envs idx)
    if t.result.success then
      { result := { t.result with warnings := t.result.warnings ++ pkgWarnings },
        spawned := spAcc + t.spawned, written := t.written }
    else compileLoop envs latex od fn pkgWarnings rest (idx + 1) (spAcc + t.spawned)

/-- `RobustLaTeXCompiler.compile`. -/
def compile (validate_before_compile : Bool) (envs : Nat → StrategyRun)
    (latex od fn : Str) (strategy_name : Option Str) : CompileOutcome :=
  if validate_before_compile then
    let v := validate_syntax' latex
    if v.1 = false then
      { result := mkCompilationResult false none
          (some (validationFailedMsg v.2)) none none,
        spawned := 0, written := none }
    else
      compileLoop envs latex od fn (validate_packages latex).2
        (strategiesFor strategy_name) 0 0
  else
    compileLoop envs latex od fn [] (strategiesFor strategy_name) 0 0

/-- The convenience entry point `compile_latex_robust`. -/
def compile_latex_robust (latex od fn : Str) (validate : Bool)
    (envs : Nat → StrategyRun) : CompileOutcome :=
  compile validate envs latex od fn none

/-- Oracle in which every subprocess invocation times out. -/
def envAllTimeout : Nat → StrategyRun :=
  fun _ => { exn := none, outcomes := fun _ => .subprocessTimeout }

/-- Oracle in which every pass completes with exit code 0 and leaves the
PDF in the workspace. -/
def envAllOk : Nat → StrategyRun :=
  fun _ => { exn := none, outcomes := fun _ => .ran [] 0 true }

/-- Oracle in which every pass completes with exit code 1 (warn-and-succeed
engines) yet leaves the PDF in the workspace. -/
def envWarnOk : Nat → StrategyRun :=
  fun _ => { exn := none, outcomes := fun _ => .ran [] 1 true }

/-!
## Lemmas about the string primitives
-/

theorem lstrip_eq_drop (l : Str) : ∃ n, lstrip l = l.drop n := by
  induction l with
  | nil => exact ⟨0, rfl⟩
  | cons c cs ih =>
    by_cases h : pyIsSpace c
    · obtain ⟨n, hn⟩ := ih
      exact ⟨n + 1, by simp [lstrip, List.dropWhile, h] at hn ⊢; simpa using hn⟩
    · exact ⟨0, by simp [lstrip, List.dropWhile, h]⟩

theorem rstrip_eq_take (l : Str) : ∃ n, rstrip l = l.take n := by
  induction l with
  | nil => exact ⟨0, rfl⟩
  | cons c cs ih =>
    obtain ⟨n, hn⟩ := ih
    cases hr : rstrip cs with
    | nil =>
      by_cases h : pyIsSpace c
      · exact ⟨0, by simp [rstrip, hr, h]⟩
      · exact ⟨1, by simp [rstrip, hr, h]⟩
    | cons d ds =>
      refine ⟨n + 1, ?_⟩
      simp only [rstrip, hr]
      rw [hr] at hn
      simp [List.take, hn]

theorem lstrip_idem (l : Str) : lstrip (lstrip l) = lstrip l := by
  induction l with
  | nil => rfl
  | cons c cs ih =>
    by_cases h : pyIsSpace c
    · simp [lstrip, List.dropWhile, h] at ih ⊢; exact ih
    · simp [lstrip, List.dropWhile, h]

theorem rstrip_cons_ne (c : Char) (cs : Str) (h : rstrip cs ≠ []) :
    rstrip (c :: cs) = c :: rstrip cs := by
  cases hr : rstrip cs with
  | nil => exact absurd hr h
  | cons d ds => simp only [rstrip, hr]

theorem rstrip_idem (l : Str) : rstrip (rstrip l) = rstrip l := by
  induction l with
  | nil => rfl
  | cons c cs ih =>
    cases hr : rstrip cs with
    | nil =>
      by_cases h : pyIsSpace c
      · simp [rstrip, hr, h]
      · simp [rstrip, hr, h]
    | cons d ds =>
      rw [hr] at ih
      have h1 : rstrip (c :: cs) = c :: d :: ds := by simp only [rstrip, hr]
      rw [h1]
      calc rstrip (c :: d :: ds) = c :: rstrip (d :: ds) :=
            rstrip_cons_ne c (d :: ds) (by rw [ih]; simp)
        _ = c :: d :: ds := by rw [ih]

theorem lstrip_of_rstrip_fixed (l : Str) (h : lstrip l = l) :
    lstrip (rstrip l) = rstrip l := by
  cases l with
  | nil => rfl
  | cons c cs =>
    have hc : pyIsSpace c = false := by
      by_contra hc
      simp only [Bool.not_eq_false] at hc
      simp only [lstrip, List.dropWhile, hc] at h
      have := congrArg List.length h
      have hlen : (List.dropWhile pyIsSpace cs).length ≤ cs.length :=
        (List.dropWhile_sublist pyIsSpace).length_le
      simp at this
      omega
    cases hr : rstrip (c :: cs) with
    | nil => rfl
    | cons d ds =>
      have hd : d = c := by
        simp only [rstrip] at hr
        cases h2 : rstrip cs with
        | nil =>
          rw [h2] at hr
          simp [hc] at hr
          exact hr.1.symm
        | cons e es =>
          rw [h2] at hr
          exact (List.cons.injEq _ _ _ _ ▸ hr).1.symm
      subst hd
      simp [lstrip, List.dropWhile, hc]

theorem pyStrip_idem (l : Str) : pyStrip (pyStrip l) = pyStrip l := by
  unfold pyStrip
  rw [lstrip_of_rstrip_fixed (lstrip l) (lstrip_idem l), rstrip_idem]

theorem pyStrip_slice (l : Str) : ∃ a b, pyStrip l = (l.drop a).take b := by
  obtain ⟨a, ha⟩ := lstrip_eq_drop l
  obtain ⟨b, hb⟩ := rstrip_eq_take (lstrip l)
  exact ⟨a, b, by rw [pyStrip, hb, ha]⟩

theorem startsWith_iff (pat l : Str) :
    startsWith pat l = true ↔ l.take pat.length = pat := by
  simp [startsWith]

theorem startsWith_length {pat l : Str} (h : startsWith pat l = true) :
    pat.length ≤ l.length := by
  rw [startsWith_iff] at h
  have := congrArg List.length h
  simp [List.length_take] at this
  omega

theorem startsWith_of_take {pat m : Str} {b : Nat}
    (h : startsWith pat (m.take b) = true) : startsWith pat m = true := by
  rw [startsWith_iff] at h ⊢
  rw [List.take_take] at h
  have hlen := congrArg List.length h
  simp [List.length_take] at hlen
  have hmin : min pat.length b = pat.length := by omega
  rw [hmin] at h
  exact h

theorem startsWith_drop_slice {pat l : Str} {a b k : Nat}
    (h : startsWith pat (((l.drop a).take b).drop k) = true) :
    startsWith pat (l.drop (a + k)) = true := by
  rw [List.drop_take, List.drop_drop] at h
  exact startsWith_of_take h

theorem findSub_eq_none {pat l : Str} (h : findSub pat l = none) :
    ∀ k, startsWith pat (l.drop k) = false := by
  induction l with
  | nil =>
    intro k
    simp only [findSub] at h
    simp only [List.drop_nil]
    by_cases hs : startsWith pat [] = true
    · simp [hs] at h
    · simpa using hs
  | cons c cs ih =>
    intro k
    simp only [findSub] at h
    by_cases hs : startsWith pat (c :: cs) = true
    · simp [hs] at h
    · have h2 : findSub pat cs = none := by
        by_cases h3 : startsWith pat (c :: cs) = true
        · exact absurd h3 hs
        · simp [h3] at h
          cases h4 : findSub pat cs with
          | none => rfl
          | some i => simp [h4] at h
      cases k with
      | zero => simpa using hs
      | succ k' => exact ih h2 k'

theorem findSub_some_starts {pat l : Str} {i : Nat} (h : findSub pat l = some i) :
    startsWith pat (l.drop i) = true := by
  induction l generalizing i with
  | nil =>
    simp only [findSub] at h
    by_cases hs : startsWith pat [] = true
    · simp [hs] at h
      subst h
      simpa using hs
    · simp [hs] at h
  | cons c cs ih =>
    simp only [findSub] at h
    by_cases hs : startsWith pat (c :: cs) = true
    · simp [hs] at h
      subst h
      simpa using hs
    · simp [hs] at h
      cases h4 : findSub pat cs with
      | none => simp [h4] at h
      | some i' =>
        simp [h4] at h
        subst h
        simpa using ih h4

theorem findSub_some_min {pat l : Str} {i : Nat} (h : findSub pat l = some i) :
    ∀ k, k < i → startsWith pat (l.drop k) = false := by
  induction l generalizing i with
  | nil =>
    intro k hk
    simp only [findSub] at h
    by_cases hs : startsWith pat [] = true
    · simp [hs] at h; omega
    · simp [hs] at h
  | cons c cs ih =>
    intro k hk
    simp only [findSub] at h
    by_cases hs : startsWith pat (c :: cs) = true
    · simp [hs] at h; omega
    · simp [hs] at h
      cases h4 : findSub pat cs with
      | none => simp [h4] at h
      | some i' =>
        simp [h4] at h
        subst h
        cases k with
        | zero => simpa using hs
        | succ k' => exact ih h4 k' (by omega)

theorem findSub_isSome_of {pat l : Str} {k : Nat}
    (h : startsWith pat (l.drop k) = true) : (findSub pat l).isSome := by
  cases e : findSub pat l with
  | none => rw [findSub_eq_none e k] at h; cases h
  | some i => rfl

/-!
## Lemmas about `extract_body`
-/

theorem extract_body_eq_of_noBegin {l : Str} (h : findSub beginTok l = none) :
    extract_body l = pyStrip l := by
  unfold extract_body
  rw [h]

theorem extract_body_eq_of_noEnd {l : Str} {i : Nat}
    (hb : findSub beginTok l = some i)
    (he : findSub endTok (l.drop (i + beginTok.length)) = none) :
    extract_body l = pyStrip l := by
  unfold extract_body
  rw [hb]
  show (match findSub endTok (l.drop (i + beginTok.length)) with
    | none => pyStrip l
    | some j => pyStrip ((l.drop (i + beginTok.length)).take j)) = pyStrip l
  rw [he]

theorem extract_body_eq_of_found {l : Str} {i j : Nat}
    (hb : findSub beginTok l = some i)
    (he : findSub endTok (l.drop (i + beginTok.length)) = some j) :
    extract_body l = pyStrip ((l.drop (i + beginTok.length)).take j) := by
  unfold extract_body
  rw [hb]
  show (match findSub endTok (l.drop (i + beginTok.length)) with
    | none => pyStrip l
    | some j => pyStrip ((l.drop (i + beginTok.length)).take j)) =
    pyStrip ((l.drop (i + beginTok.length)).take j)
  rw [he]

theorem extract_body_of_pyStrip_noBegin {l : Str}
    (hb : findSub beginTok l = none) :
    extract_body (pyStrip l) = pyStrip l := by
  obtain ⟨a, b, hs⟩ := pyStrip_slice l
  have hnone : findSub beginTok (pyStrip l) = none := by
    cases e : findSub beginTok (pyStrip l) with
    | none => rfl
    | some i =>
      have h1 := findSub_some_starts e
      rw [hs] at h1
      have h2 := startsWith_drop_slice h1
      rw [findSub_eq_none hb (a + i)] at h2
      cases h2
  rw [extract_body_eq_of_noBegin hnone]
  exact pyStrip_idem l

theorem extract_body_of_pyStrip_noEnd {l : Str} {i : Nat}
    (hb : findSub beginTok l = some i)
    (he : findSub endTok (l.drop (i + beginTok.length)) = none) :
    extract_body (pyStrip l) = pyStrip l := by
  obtain ⟨a, b, hs⟩ := pyStrip_slice l
  cases e2 : findSub beginTok (pyStrip l) with
  | none =>
    rw [extract_body_eq_of_noBegin e2]
    exact pyStrip_idem l
  | some i' =>
    have hstL : startsWith beginTok (l.drop (a + i')) = true := by
      have h1 := findSub_some_starts e2
      rw [hs] at h1
      exact startsWith_drop_slice h1
    have hge : i ≤ a + i' := by
      by_contra hlt
      rw [findSub_some_min hb (a + i') (by omega)] at hstL
      cases hstL
    have hnone2 : findSub endTok ((pyStrip l).drop (i' + beginTok.length)) = none := by
      cases e3 : findSub endTok ((pyStrip l).drop (i' + beginTok.length)) with
      | none => rfl
      | some j' =>
        have h3 := findSub_some_starts e3
        rw [List.drop_drop] at h3
        rw [hs] at h3
        have h4 := startsWith_drop_slice h3
        have harith : a + (i' + beginTok.length + j') =
            i + beginTok.length + (a + i' + j' - i) := by omega
        rw [harith, ← List.drop_drop] at h4
        rw [findSub_eq_none he (a + i' + j' - i)] at h4
        cases h4
    rw [extract_body_eq_of_noEnd e2 hnone2]
    exact pyStrip_idem l

/-- Claim C7 key fact: the lazily-matched group contains no occurrence of
`\end{document}`, so neither does its strip. -/
theorem noEnd_in_body {l : Str} {i j : Nat}
    (he : findSub endTok (l.drop (i + beginTok.length)) = some j) :
    ∀ k, startsWith endTok
      ((pyStrip ((l.drop (i + beginTok.length)).take j)).drop k) = false := by
  intro k
  by_contra hK
  rw [Bool.not_eq_false] at hK
  obtain ⟨a, b, hs⟩ := pyStrip_slice ((l.drop (i + beginTok.length)).take j)
  rw [hs] at hK
  have h1 := startsWith_drop_slice hK
  have h2 : startsWith endTok ((l.drop (i + beginTok.length)).drop (a + k)) = true := by
    rw [List.drop_take] at h1
    exact startsWith_of_take h1
  have hlen := startsWith_length h1
  have hePos : 0 < endTok.length := by decide
  have hlt : a + k < j := by
    rw [List.length_drop, List.length_take] at hlen
    omega
  rw [findSub_some_min he (a + k) hlt] at h2
  cases h2

/-- Claim C7: `extract_body` is idempotent: for every document string,
`extract_body (extract_body doc) = extract_body doc`; in particular, on a
string already reduced to body-only it returns the body unchanged. -/
theorem c7_extract_body_idempotent (content : Str) :
    extract_body (extract_body content) = extract_body content := by
  cases hb : findSub beginTok content with
  | none =>
    rw [extract_body_eq_of_noBegin hb]
    exact extract_body_of_pyStrip_noBegin hb
  | some i =>
    cases he : findSub endTok (content.drop (i + beginTok.length)) with
    | none =>
      rw [extract_body_eq_of_noEnd hb he]
      exact extract_body_of_pyStrip_noEnd hb he
    | some j =>
      rw [extract_body_eq_of_found hb he]
      have hkey := noEnd_in_body he
      cases e2 : findSub beginTok
          (pyStrip ((content.drop (i + beginTok.length)).take j)) with
      | none =>
        rw [extract_body_eq_of_noBegin e2]
        exact pyStrip_idem _
      | some i' =>
        have hnone : findSub endTok
            ((pyStrip ((content.drop (i + beginTok.length)).take j)).drop
              (i' + beginTok.length)) = none := by
          cases e3 : findSub endTok
              ((pyStrip ((content.drop (i + beginTok.length)).take j)).drop
                (i' + beginTok.length)) with
          | none => rfl
          | some j' =>
            have h3 := findSub_some_starts e3
            rw [List.drop_drop] at h3
            rw [hkey (i' + beginTok.length + j')] at h3
            cases h3
        rw [extract_body_eq_of_noEnd e2 hnone]
        exact pyStrip_idem _

/-!
## Lemmas about `validate_syntax`
-/

theorem startsWith_append_self (p r : Str) : startsWith p (p ++ r) = true := by
  simp [startsWith, List.take_left]

theorem braceShape_braceMsg (d : Int) : braceShape (braceMsg d) = true := by
  unfold braceShape braceMsg bracePre
  rw [List.append_assoc]
  exact startsWith_append_self _ _

theorem braceMsg_ne_dollarMsg (d : Int) : braceMsg d ≠ dollarMsg := by
  intro h
  have h1 : braceShape (braceMsg d) = true := braceShape_braceMsg d
  rw [h] at h1
  have h2 : braceShape dollarMsg = false := by decide
  rw [h1] at h2
  cases h2

theorem braceMsg_ne_tooManyMsg (d : Int) : braceMsg d ≠ tooManyMsg := by
  intro h
  have h1 : braceShape (braceMsg d) = true := braceShape_braceMsg d
  rw [h] at h1
  have h2 : braceShape tooManyMsg = false := by decide
  rw [h1] at h2
  cases h2

theorem braceMsg_ne_nestedMsg (d : Int) : braceMsg d ≠ nestedMsg := by
  intro h
  have h1 : braceShape (braceMsg d) = true := braceShape_braceMsg d
  rw [h] at h1
  have h2 : braceShape nestedMsg = false := by decide
  rw [h1] at h2
  cases h2

theorem validate_errors_eq (l : Str) :
    (validate_syntax' l).2 =
      ((reFinditer mDollarRun l).map (fun _ => tooManyMsg)) ++
      ((reFinditer mNestedTextbf l).map (fun _ => nestedMsg)) ++
      ((if braceDiff l ≠ 0 then [braceMsg (braceDiff l)] else []) ++
       (if l.count '$' % 2 ≠ 0 then [dollarMsg] else [])) := by
  simp [validate_syntax', List.append_assoc]

theorem mem_validate_errors {l : Str} {x : Str} (h : x ∈ (validate_syntax' l).2) :
    x = tooManyMsg ∨ x = nestedMsg ∨
    (x = braceMsg (braceDiff l) ∧ braceDiff l ≠ 0) ∨
    (x = dollarMsg ∧ l.count '$' % 2 ≠ 0) := by
  rw [validate_errors_eq] at h
  rcases List.mem_append.mp h with h1 | h2
  · rcases List.mem_append.mp h1 with h3 | h4
    · obtain ⟨_, _, he⟩ := List.mem_map.mp h3
      exact Or.inl he.symm
    · obtain ⟨_, _, he⟩ := List.mem_map.mp h4
      exact Or.inr (Or.inl he.symm)
  · rcases List.mem_append.mp h2 with h3 | h4
    · by_cases hd : braceDiff l ≠ 0
      · rw [if_pos hd] at h3
        simp at h3
        exact Or.inr (Or.inr (Or.inl ⟨h3, hd⟩))
      · rw [if_neg hd] at h3
        cases h3
    · by_cases hp : l.count '$' % 2 ≠ 0
      · rw [if_pos hp] at h4
        simp at h4
        exact Or.inr (Or.inr (Or.inr ⟨h4, hp⟩))
      · rw [if_neg hp] at h4
        cases h4

theorem braceMsg_mem {l : Str} (h : braceDiff l ≠ 0) :
    braceMsg (braceDiff l) ∈ (validate_syntax' l).2 := by
  rw [validate_errors_eq]
  refine List.mem_append.mpr (Or.inr (List.mem_append.mpr (Or.inl ?_)))
  rw [if_pos h]
  exact List.mem_singleton.mpr rfl

theorem dollarMsg_mem {l : Str} (h : l.count '$' % 2 ≠ 0) :
    dollarMsg ∈ (validate_syntax' l).2 := by
  rw [validate_errors_eq]
  refine List.mem_append.mpr (Or.inr (List.mem_append.mpr (Or.inr ?_)))
  rw [if_pos h]
  exact List.mem_singleton.mpr rfl

theorem braceDiff_ne_zero_iff (l : Str) :
    braceDiff l ≠ 0 ↔ l.count '\x7b' ≠ l.count '\x7d' := by
  unfold braceDiff
  omega

/-- Claim C5: `validate_syntax` reports a brace-imbalance blocking finding
iff the count of `{` differs from the count of `}`, and the finding it then
reports is `braceMsg` of the signed difference, whose text carries the
absolute value of that difference. -/
theorem c5_brace_balance (l : Str) :
    ((validate_syntax' l).2.any braceShape = true ↔
      l.count '\x7b' ≠ l.count '\x7d') ∧
    (l.count '\x7b' ≠ l.count '\x7d' →
      braceMsg ((l.count '\x7b' : Int) - (l.count '\x7d' : Int)) ∈
        (validate_syntax' l).2) := by
  constructor
  · constructor
    · intro h
      obtain ⟨x, hx, hshape⟩ := List.any_eq_true.mp h
      rcases mem_validate_errors hx with h1 | h2 | ⟨h3, hd⟩ | ⟨h4, _⟩
      · subst h1; exact absurd hshape (by decide)
      · subst h2; exact absurd hshape (by decide)
      · exact (braceDiff_ne_zero_iff l).mp hd
      · subst h4; exact absurd hshape (by decide)
    · intro h
      have hd : braceDiff l ≠ 0 := (braceDiff_ne_zero_iff l).mpr h
      exact List.any_eq_true.mpr
        ⟨braceMsg (braceDiff l), braceMsg_mem hd, braceShape_braceMsg _⟩
  · intro h
    exact braceMsg_mem ((braceDiff_ne_zero_iff l).mpr h)

/-- Claim C6: `validate_syntax` reports the math-delimiter blocking finding
iff the count of `$` characters in the source is odd. -/
theorem c6_dollar_parity (l : Str) :
    dollarMsg ∈ (validate_syntax' l).2 ↔ l.count '$' % 2 = 1 := by
  constructor
  · intro h
    rcases mem_validate_errors h with h1 | h2 | ⟨h3, _⟩ | ⟨_, hp⟩
    · exact absurd h1.symm (by decide)
    · exact absurd h2.symm (by decide)
    · exact absurd h3.symm (braceMsg_ne_dollarMsg _)
    · omega
  · intro h
    exact dollarMsg_mem (by omega)

/-!
## Lemmas about warning extraction
-/

theorem dedupFold_nodup (raw : List Str) :
    ∀ acc : List Str, acc.Nodup →
      (raw.foldl (fun acc w => if w ∈ acc then acc else acc ++ [w]) acc).Nodup := by
  induction raw with
  | nil => intro acc h; exact h
  | cons w rest ih =>
    intro acc h
    simp only [List.foldl_cons]
    by_cases hw : w ∈ acc
    · rw [if_pos hw]
      exact ih acc h
    · rw [if_neg hw]
      refine ih (acc ++ [w]) ?_
      rw [List.nodup_append]
      refine ⟨h, List.nodup_singleton w, ?_⟩
      intro a ha hb
      simp at hb
      subst hb
      exact hw ha

theorem dedupFold_mem (raw : List Str) :
    ∀ acc : List Str, ∀ x,
      x ∈ raw.foldl (fun acc w => if w ∈ acc then acc else acc ++ [w]) acc →
      x ∈ acc ∨ x ∈ raw := by
  induction raw with
  | nil => intro acc x h; exact Or.inl h
  | cons w rest ih =>
    intro acc x h
    simp only [List.foldl_cons] at h
    by_cases hw : w ∈ acc
    · rw [if_pos hw] at h
      rcases ih acc x h with h1 | h2
      · exact Or.inl h1
      · exact Or.inr (List.mem_cons_of_mem w h2)
    · rw [if_neg hw] at h
      rcases ih (acc ++ [w]) x h with h1 | h2
      · rcases List.mem_append.mp h1 with h3 | h4
        · exact Or.inl h3
        · simp at h4
          subst h4
          exact Or.inr (List.mem_cons_self x rest)
      · exact Or.inr (List.mem_cons_of_mem w h2)

/-- Claim C8: `_extract_warnings_from_log` returns a duplicate-free list of
at most 10 entries, each at most 150 characters long and each one of the
(stripped, truncated) pattern-match texts. -/
theorem c8_warning_extraction (log : Str) :
    (extract_warnings_from_log log).Nodup ∧
    (extract_warnings_from_log log).length ≤ 10 ∧
    ∀ w ∈ extract_warnings_from_log log,
      w.length ≤ 150 ∧ w ∈ rawWarnings log := by
  refine ⟨?_, ?_, ?_⟩
  · exact (dedupFold_nodup (rawWarnings log) [] List.nodup_nil).sublist
      (List.take_sublist 10 _)
  · exact List.length_take_le 10 _
  · intro w hw
    have hmem : w ∈ rawWarnings log := by
      have h1 := List.mem_of_mem_take hw
      rcases dedupFold_mem (rawWarnings log) [] w h1 with h2 | h3
      · cases h2
      · exact h3
    refine ⟨?_, hmem⟩
    obtain ⟨x, _, hx⟩ := List.mem_map.mp hmem
    rw [← hx]
    calc ((pyStrip x).take 150).length ≤ 150 := List.length_take_le 150 _

/-!
## Lemmas about the compiler facade
-/

theorem passLoop_fail_inv (st : Strategy) (oc : Nat → PassOutcome) :
    ∀ r k log b sp res sp',
      passLoop st oc r k log b sp = (.fail res, sp') →
      res.success = false ∧ res.error_message.isSome = true ∧ res.warnings = [] := by
  intro r
  induction r with
  | zero =>
    intro k log b sp res sp' h
    simp only [passLoop] at h
    cases h
  | succ r' ih =>
    intro k log b sp res sp' h
    simp only [passLoop] at h
    cases hoc : oc k with
    | subprocessTimeout =>
      rw [hoc] at h
      simp only [Prod.mk.injEq, LoopExit.fail.injEq] at h
      rw [← h.1]
      exact ⟨rfl, rfl, rfl⟩
    | alarmTimeout =>
      rw [hoc] at h
      simp only [Prod.mk.injEq, LoopExit.fail.injEq] at h
      rw [← h.1]
      exact ⟨rfl, rfl, rfl⟩
    | ran out rc pdfEx =>
      rw [hoc] at h
      by_cases hpdf : pdfEx = true
      · rw [hpdf] at h
        simp only [if_true] at h
        exact ih (k + 1) (log ++ out) true (sp + 1) res sp' h
      · rw [Bool.not_eq_true] at hpdf
        rw [hpdf] at h
        simp only [Bool.false_eq_true, if_false, Prod.mk.injEq, LoopExit.fail.injEq] at h
        rw [← h.1]
        exact ⟨rfl, rfl, rfl⟩

theorem passLoop_all_ran (st : Strategy) (oc : Nat → PassOutcome) :
    ∀ r k log b sp, 0 < r →
      (∀ m, m < r → ∃ o c, oc (k + m) = .ran o c true) →
      ∃ lg sp2, passLoop st oc r k log b sp = (.done lg true, sp2) := by
  intro r
  induction r with
  | zero =>
    intro k log b sp hr
    omega
  | succ r' ih =>
    intro k log b sp _ hall
    obtain ⟨o, c, hoc⟩ := hall 0 (by omega)
    rw [Nat.add_zero] at hoc
    by_cases hr' : r' = 0
    · subst hr'
      refine ⟨log ++ o, sp + 1, ?_⟩
      simp only [passLoop, hoc, if_true]
    · obtain ⟨lg, sp2, hrec⟩ := ih (k + 1) (log ++ o) true (sp + 1) (by omega)
        (fun m hm => by
          obtain ⟨o2, c2, h2⟩ := hall (m + 1) (by omega)
          exact ⟨o2, c2, by rw [show k + 1 + m = k + (m + 1) by omega]; exact h2⟩)
      refine ⟨lg, sp2, ?_⟩
      simp only [passLoop, hoc, if_true]
      exact hrec

theorem try_strategy_success_inv (latex od fn : Str) (st : Strategy)
    (rn : StrategyRun) :
    ((try_strategy latex od fn st rn).result.success = true →
      (try_strategy latex od fn st rn).result.pdf_path =
        some (outputPdfPath od fn) ∧
      (try_strategy latex od fn st rn).written = some (outputPdfPath od fn)) ∧
    ((try_strategy latex od fn st rn).result.success = false →
      (try_strategy latex od fn st rn).result.error_message.isSome = true ∧
      (try_strategy latex od fn st rn).result.warnings = []) := by
  unfold try_strategy
  cases hex : rn.exn with
  | some e =>
    constructor
    · intro h
      cases h
    · intro _
      exact ⟨rfl, rfl⟩
  | none =>
    rcases hp : passLoop st rn.outcomes st.passes 0 [] false 0 with ⟨le, sp⟩
    cases le with
    | fail res =>
      have hres := passLoop_fail_inv st rn.outcomes st.passes 0 [] false 0 res sp hp
      constructor
      · intro h
        simp only [hp] at h
        rw [hres.1] at h
        cases h
      · intro _
        simp only [hp]
        exact ⟨hres.2.1, hres.2.2⟩
    | done lg pdfNow =>
      by_cases hn : pdfNow = true
      · subst hn
        constructor
        · intro _
          simp only [hp]
          exact ⟨rfl, rfl⟩
        · intro h
          simp only [hp] at h
          cases h
      · rw [Bool.not_eq_true] at hn
        subst hn
        constructor
        · intro h
          simp only [hp] at h
          cases h
        · intro _
          simp only [hp]
          exact ⟨rfl, rfl⟩

theorem compileLoop_inv (envs : Nat → StrategyRun) (latex od fn : Str)
    (w : List Str) :
    ∀ (L : List Strategy) (idx sp : Nat),
      ((compileLoop envs latex od fn w L idx sp).result.success = true →
        (compileLoop envs latex od fn w L idx sp).result.pdf_path =
          some (outputPdfPath od fn) ∧
        (compileLoop envs latex od fn w L idx sp).written =
          some (outputPdfPath od fn)) ∧
      ((compileLoop envs latex od fn w L idx sp).result.success = false →
        (compileLoop envs latex od fn w L idx sp).result.error_message.isSome = true ∧
        (compileLoop envs latex od fn w L idx sp).result.warnings = []) := by
  intro L
  induction L with
  | nil =>
    intro idx sp
    constructor
    · intro h
      cases h
    · intro _
      exact ⟨rfl, rfl⟩
  | cons st rest ih =>
    intro idx sp
    unfold compileLoop
    by_cases hs : (try_strategy latex od fn st (envs idx)).result.success = true
    · simp only [hs, if_true]
      constructor
      · intro _
        have h1 := (try_strategy_success_inv latex od fn st (envs idx)).1 hs
        exact ⟨h1.1, h1.2⟩
      · intro h
        simp [hs] at h
    · rw [Bool.not_eq_true] at hs
      simp only [hs, Bool.false_eq_true, if_false]
      exact ih (idx + 1) (sp + (try_strategy latex od fn st (envs idx)).spawned)

/-- Claim C1: the `CompilationResult` invariant.  `compile_latex_robust` is
`compile` with the default strategy selection; whenever a result has
`success = true` its `pdf_path` is the path `output_dir / (filename ++ ".pdf")`
and that very path was written into the output directory (`written`),
and whenever `success = false` the `error_message` is set. -/
theorem c1_result_invariant (v : Bool) (envs : Nat → StrategyRun)
    (latex od fn : Str) (sn : Option Str) :
    (compile_latex_robust latex od fn v envs = compile v envs latex od fn none) ∧
    ((compile v envs latex od fn sn).result.success = true →
      (compile v envs latex od fn sn).result.pdf_path =
        some (outputPdfPath od fn) ∧
      (compile v envs latex od fn sn).written = some (outputPdfPath od fn)) ∧
    ((compile v envs latex od fn sn).result.success = false →
      (compile v envs latex od fn sn).result.error_message.isSome = true) := by
  refine ⟨rfl, ?_⟩
  unfold compile
  cases v with
  | false =>
    simp only [Bool.false_eq_true, if_false]
    have h := compileLoop_inv envs latex od fn [] (strategiesFor sn) 0 0
    exact ⟨h.1, fun hf => (h.2 hf).1⟩
  | true =>
    simp only [if_true]
    by_cases hval : (validate_syntax' latex).1 = false
    · rw [if_pos hval]
      constructor
      · intro h
        cases h
      · intro _
        rfl
    · rw [if_neg hval]
      have h := compileLoop_inv envs latex od fn (validate_packages latex).2
        (strategiesFor sn) 0 0
      exact ⟨h.1, fun hf => (h.2 hf).1⟩

/-- Claim C9: `warnings` is never `None`: the constructor turns a `None`
`warnings` into the empty list, and every failure result `compile` returns
carries the empty warnings list. -/
theorem c9_warnings_never_none :
    (∀ (s : Bool) (pp em lc : Option Str),
      (mkCompilationResult s pp em none lc).warnings = []) ∧
    (∀ (v : Bool) (envs : Nat → StrategyRun) (latex od fn : Str)
        (sn : Option Str),
      (compile v envs latex od fn sn).result.success = false →
      (compile v envs latex od fn sn).result.warnings = []) := by
  constructor
  · intro s pp em lc
    rfl
  · intro v envs latex od fn sn h
    revert h
    unfold compile
    cases v with
    | false =>
      simp only [Bool.false_eq_true, if_false]
      intro h
      exact ((compileLoop_inv envs latex od fn [] (strategiesFor sn) 0 0).2 h).2
    | true =>
      simp only [if_true]
      by_cases hval : (validate_syntax' latex).1 = false
      · rw [if_pos hval]
        intro _
        rfl
      · rw [if_neg hval]
        intro h
        exact ((compileLoop_inv envs latex od fn (validate_packages latex).2
          (strategiesFor sn) 0 0).2 h).2

/-- Claim C2: with validation enabled and at least one blocking finding,
`compile` fails immediately: for every process oracle the outcome is exactly
the validation-failure result whose message joins the full findings list,
with zero subprocesses spawned and nothing written. -/
theorem c2_validation_short_circuit (envs : Nat → StrategyRun)
    (latex od fn : Str) (sn : Option Str)
    (h : (validate_syntax' latex).2 ≠ []) :
    compile true envs latex od fn sn =
      { result := mkCompilationResult false none
          (some (validationFailedMsg (validate_syntax' latex).2)) none none,
        spawned := 0, written := none } := by
  have hv : (validate_syntax' latex).1 = false := by
    have he : (validate_syntax' latex).1 = ((validate_syntax' latex).2).isEmpty := rfl
    rw [he]
    cases hE : (validate_syntax' latex).2 with
    | nil => exact absurd hE h
    | cons a as => rfl
  unfold compile
  simp only [if_true, hv, if_pos]

/-- Witness for C2 at the concrete invalid source `"{"`. -/
theorem c2_validation_short_circuit_witness :
    (validate_syntax' (str "\x7b")).2 ≠ [] ∧
    compile true envAllTimeout (str "\x7b") (str "/out") (str "output") none =
      { result := mkCompilationResult false none
          (some (validationFailedMsg (validate_syntax' (str "\x7b")).2)) none none,
        spawned := 0, written := none } :=
  ⟨by decide, c2_validation_short_circuit envAllTimeout (str "\x7b") (str "/out")
    (str "output") none (by decide)⟩


/-- Claim C3: success of a strategy is decided solely by artifact existence,
never by the exit code: when every pass completes with a nonzero exit code
yet the artifact exists after each pass, `_try_strategy` reports
`success = true` with the artifact path (the exit codes are never consulted). -/
theorem c3_artifact_over_exit_code (latex od fn : Str) (st : Strategy)
    (rn : StrategyRun) (outs : Nat → Str) (rcs : Nat → Int)
    (hp : 0 < st.passes) (hex : rn.exn = none)
    (hrun : ∀ k, k < st.passes → rn.outcomes k = .ran (outs k) (rcs k) true)
    (_hnz : ∀ k, k < st.passes → rcs k ≠ 0) :
    (try_strategy latex od fn st rn).result.success = true ∧
    (try_strategy latex od fn st rn).result.pdf_path =
      some (outputPdfPath od fn) := by
  obtain ⟨lg, sp2, hloop⟩ := passLoop_all_ran st rn.outcomes st.passes 0 [] false 0 hp
    (fun m hm => ⟨outs m, rcs m, by rw [Nat.zero_add]; exact hrun m hm⟩)
  unfold try_strategy
  rw [hex]
  simp only [hloop]
  exact ⟨rfl, rfl⟩

/-- Witness for C3: the first ladder strategy, every pass exiting 1 yet
leaving the PDF. -/
theorem c3_artifact_over_exit_code_witness :
    (try_strategy (str "x") (str "/out") (str "output") lualatex_fast
        { exn := none, outcomes := fun _ => .ran [] 1 true }).result.success = true ∧
    (try_strategy (str "x") (str "/out") (str "output") lualatex_fast
        { exn := none, outcomes := fun _ => .ran [] 1 true }).result.pdf_path =
      some (outputPdfPath (str "/out") (str "output")) := by
  refine c3_artifact_over_exit_code (str "x") (str "/out") (str "output")
    lualatex_fast { exn := none, outcomes := fun _ => .ran [] 1 true }
    (fun _ => []) (fun _ => 1) (by decide) rfl (fun _ _ => rfl) (fun _ _ => ?_)
  exact one_ne_zero

/-- Claim C4 counterexample: with every pass of every strategy timing out,
the last attempted strategy (`pdflatex_safe`, oracle index 5) fails with the
specific message "Compilation timed out after 30s (possible infinite loop)",
but `compile` surfaces the fixed generic exhaustion message instead — it does
not carry the last strategy\u2019s message. -/
theorem c4_counterexample :
    (compile false envAllTimeout (str "x") (str "/out") (str "output")
        none).result.error_message = some allFailedMsg ∧
    (try_strategy (str "x") (str "/out") (str "output") pdflatex_safe
        (envAllTimeout 5)).result.error_message = some (timeoutExpiredMsg 30) ∧
    allFailedMsg ≠ timeoutExpiredMsg 30 :=
  ⟨rfl, rfl, by decide⟩

theorem compileLoop_all_fail (envs : Nat → StrategyRun) (latex od fn : Str)
    (w : List Str) :
    ∀ (L : List Strategy) (idx sp : Nat),
      (∀ i, i < L.length →
        (try_strategy latex od fn (L.getD i lualatex_fast)
          (envs (idx + i))).result.success = false) →
      (compileLoop envs latex od fn w L idx sp).result =
        mkCompilationResult false none (some allFailedMsg) none none ∧
      (compileLoop envs latex od fn w L idx sp).written = none := by
  intro L
  induction L with
  | nil =>
    intro idx sp _
    exact ⟨rfl, rfl⟩
  | cons st rest ih =>
    intro idx sp hall
    have h0 : (try_strategy latex od fn st (envs idx)).result.success = false := by
      have := hall 0 (by simp)
      rw [Nat.add_zero] at this
      exact this
    unfold compileLoop
    simp only [h0, Bool.false_eq_true, if_false]
    exact ih (idx + 1) (sp + (try_strategy latex od fn st (envs idx)).spawned)
      (fun i hi => by
        have := hall (i + 1) (by simpa using Nat.succ_lt_succ hi)
        rw [show idx + (i + 1) = idx + 1 + i by omega] at this
        exact this)

/-- Claim C4 as amended: when validation is off or passes and every strategy
of the selected ladder fails, `compile` returns a failure whose
`error_message` is the fixed generic exhaustion message ("All compilation
strategies failed. Please check your LaTeX syntax."); the per-strategy error
messages, including the last one, are discarded. -/
theorem c4_ladder_exhausted_generic (v : Bool) (envs : Nat → StrategyRun)
    (latex od fn : Str) (sn : Option Str)
    (hv : v = false ∨ (validate_syntax' latex).1 = true)
    (hf : ∀ i, i < (strategiesFor sn).length →
      (try_strategy latex od fn ((strategiesFor sn).getD i lualatex_fast)
        (envs i)).result.success = false) :
    (compile v envs latex od fn sn).result =
      mkCompilationResult false none (some allFailedMsg) none none := by
  have hf0 : ∀ i, i < (strategiesFor sn).length →
      (try_strategy latex od fn ((strategiesFor sn).getD i lualatex_fast)
        (envs (0 + i))).result.success = false := by
    intro i hi
    rw [Nat.zero_add]
    exact hf i hi
  cases v with
  | false =>
    unfold compile
    simp only [Bool.false_eq_true, if_false]
    exact (compileLoop_all_fail envs latex od fn [] (strategiesFor sn) 0 0 hf0).1
  | true =>
    have hval : (validate_syntax' latex).1 = true := by
      rcases hv with h1 | h2
      · cases h1
      · exact h2
    unfold compile
    simp only [if_true, hval, Bool.true_eq_false, if_false]
    exact (compileLoop_all_fail envs latex od fn (validate_packages latex).2
      (strategiesFor sn) 0 0 hf0).1

/-- Witness for the amended C4: validation off, every pass of every strategy
timing out. -/
theorem c4_ladder_exhausted_generic_witness :
    (compile false envAllTimeout (str "x") (str "/out") (str "output")
        none).result =
      mkCompilationResult false none (some allFailedMsg) none none :=
  c4_ladder_exhausted_generic false envAllTimeout (str "x") (str "/out")
    (str "output") none (Or.inl rfl) (by decide)

/-- Claim C10 counterexample: the empty string matches no configured strategy
name (all six names are non-empty), yet `compile` with `strategy_name = ""`
does not short-circuit: Python\u2019s `if not strategy_name` treats the empty
string like `None`, so the full ladder is used — here the first strategy
succeeds after spawning two subprocesses and `compile` returns
`success = true`, contradicting "attempts no strategy" and "returns
success=false". -/
theorem c10_counterexample :
    ((STRATEGIES.map Strategy.name).all (fun n => !n.isEmpty) = true) ∧
    (compile false envAllOk (str "x") (str "/out") (str "output")
        (some [])).result.success = true ∧
    (compile false envAllOk (str "x") (str "/out") (str "output")
        (some [])).spawned = 2 :=
  ⟨by decide, rfl, rfl⟩

/-- Claim C10 as amended: for every non-empty `strategy_name` matching no
configured strategy name, `compile` attempts no strategy (zero subprocesses,
nothing written) and returns `success = false`; the `error_message` is the
generic ladder-exhaustion message when validation is disabled or passes (with
failing validation it is the validation-failure message instead, still with
no strategy attempted). -/
theorem c10_unknown_strategy_name (v : Bool) (envs : Nat → StrategyRun)
    (latex od fn n : Str)
    (hn : n ≠ []) (hmatch : ∀ s ∈ STRATEGIES, s.name ≠ n) :
    (compile v envs latex od fn (some n)).spawned = 0 ∧
    (compile v envs latex od fn (some n)).result.success = false ∧
    (compile v envs latex od fn (some n)).written = none ∧
    ((v = false ∨ (validate_syntax' latex).1 = true) →
      (compile v envs latex od fn (some n)).result.error_message =
        some allFailedMsg) := by
  have hempty : strategiesFor (some n) = [] := by
    show (if n.isEmpty = true then STRATEGIES
      else STRATEGIES.filter (fun s => s.name == n)) = []
    rw [if_neg (by simpa [List.isEmpty_iff] using hn)]
    rw [List.filter_eq_nil_iff]
    intro s hs
    simpa using hmatch s hs
  cases v with
  | false =>
    have hc : compile false envs latex od fn (some n) =
        compileLoop envs latex od fn [] [] 0 0 := by
      show compileLoop envs latex od fn [] (strategiesFor (some n)) 0 0 =
        compileLoop envs latex od fn [] [] 0 0
      rw [hempty]
    rw [hc]
    exact ⟨rfl, rfl, rfl, fun _ => rfl⟩
  | true =>
    by_cases hval : (validate_syntax' latex).1 = false
    · have hc : compile true envs latex od fn (some n) =
          { result := mkCompilationResult false none
              (some (validationFailedMsg (validate_syntax' latex).2)) none none,
            spawned := 0, written := none } := by
        unfold compile
        simp only [if_true, hval, if_pos]
      rw [hc]
      refine ⟨rfl, rfl, rfl, ?_⟩
      intro hdisj
      rcases hdisj with h1 | h2
      · cases h1
      · rw [hval] at h2
        cases h2
    · rw [Bool.not_eq_false] at hval
      have hc : compile true envs latex od fn (some n) =
          compileLoop envs latex od fn (validate_packages latex).2 [] 0 0 := by
        unfold compile
        simp only [if_true, hval, Bool.true_eq_false, if_false]
        rw [hempty]
      rw [hc]
      exact ⟨rfl, rfl, rfl, fun _ => rfl⟩

/-- Witness for the amended C10 at the unknown name `"zzz"`. -/
theorem c10_unknown_strategy_name_witness :
    (compile true envAllOk (str "x") (str "/out") (str "output")
        (some (str "zzz"))).spawned = 0 ∧
    (compile true envAllOk (str "x") (str "/out") (str "output")
        (some (str "zzz"))).result.success = false ∧
    (compile true envAllOk (str "x") (str "/out") (str "output")
        (some (str "zzz"))).written = none ∧
    ((true = false ∨ (validate_syntax' (str "x")).1 = true) →
      (compile true envAllOk (str "x") (str "/out") (str "output")
        (some (str "zzz"))).result.error_message = some allFailedMsg) :=
  c10_unknown_strategy_name true envAllOk (str "x") (str "/out") (str "output")
    (str "zzz") (by decide) (by decide)


end MCQ
